import Mathlib

/-!
Verification of the Agent_Arena group-chat orchestrator.

Shallow embedding of the core of the repository:
  * `src/core/orchestrator.py`  — mention parsing, must/may partitioning,
    turn execution, chaining, memory-marker processing;
  * `src/memory/store.py`       — `MemoryStore.search_memory`;
  * `src/worker/adapters/claude_cli.py` and `cursor_cli.py` — failure
    sentinels and `NEXT_MENTIONS` extraction;
  * `src/core/context_builder.py` + `src/registry/agent_registry.py` —
    peer-list construction.

Strings are modelled as `List Char`; Python floats as `ℚ`; `json.loads`
is an abstract parameter (`pj`) of the functions that use it; fallible
Python code (`KeyError` from the registry) is modelled with `Except`.
-/

namespace AgentArena

/-- Python whitespace (`str.split` / `str.strip` / `\s`), ASCII part. -/
def pyIsSpace (c : Char) : Bool :=
  c == ' ' || c == '\t' || c == '\n' || c == '\r' || c == '\x0b' || c == '\x0c'

/-- Python `str.strip()`: drop leading and trailing whitespace. -/
def pyStrip (s : List Char) : List Char :=
  ((s.dropWhile pyIsSpace).reverse.dropWhile pyIsSpace).reverse

/-- Boolean prefix test on char lists (left list is the candidate prefix). -/
def leadEq : List Char → List Char → Bool
  | [], _ => true
  | _ :: _, [] => false
  | a :: as, b :: bs => a == b && leadEq as bs

/-- Lazy scan for the first occurrence of the literal `cls`, as the regex
fragment `.*?cls` does: at each offset first try `cls`, otherwise consume one
character with `.` — which must not satisfy `bad` (`bad c = (c == chr 10)`
models a pattern compiled without `re.DOTALL`).  Returns the characters
consumed before `cls` and the rest after `cls`. -/
def splitFirstB (bad : Char → Bool) (cls : List Char) : List Char → Option (List Char × List Char)
  | [] => none
  | c :: rest =>
    if cls ≠ [] ∧ leadEq cls (c :: rest) = true then
      some ([], (c :: rest).drop cls.length)
    else if bad c then none
    else
      match splitFirstB bad cls rest with
      | some (p, r) => some (c :: p, r)
      | none => none

/-- One attempt of the marker regex `opn(.*?)cls` anchored at the start of
`s`: the literal `opn`, then a lazy body avoiding `bad`, then `cls`. -/
def tryMatch (bad : Char → Bool) (opn cls : List Char) (s : List Char) :
    Option (List Char × List Char) :=
  if leadEq opn s = true then splitFirstB bad cls (s.drop opn.length) else none

theorem splitFirstB_length (bad : Char → Bool) (cls : List Char) :
    ∀ s p r, splitFirstB bad cls s = some (p, r) → r.length < s.length := by
  intro s
  induction s with
  | nil => intro p r h; simp [splitFirstB] at h
  | cons c rest ih =>
    intro p r h
    rw [splitFirstB] at h
    split at h
    · rename_i hcond
      have hlen : 0 < cls.length := List.length_pos.mpr hcond.1
      injection h with h
      have h2 := congrArg Prod.snd h
      simp only at h2
      subst h2
      simp only [List.length_drop, List.length_cons]
      omega
    · split at h
      · exact absurd h (by simp)
      · rename_i hsplit
        match hrec : splitFirstB bad cls rest with
        | some (p', r') =>
          rw [hrec] at h
          injection h with h
          have h2 := congrArg Prod.snd h
          simp only at h2
          subst h2
          have := ih p' r' hrec
          simp only [List.length_cons]
          omega
        | none => rw [hrec] at h; exact absurd h (by simp)

theorem tryMatch_length (bad : Char → Bool) (opn cls : List Char) :
    ∀ s p r, tryMatch bad opn cls s = some (p, r) → r.length < s.length := by
  intro s p r h
  rw [tryMatch] at h
  split at h
  · have := splitFirstB_length bad cls (s.drop opn.length) p r h
    have h2 : (s.drop opn.length).length ≤ s.length := by
      simp only [List.length_drop]; omega
    omega
  · exact absurd h (by simp)

/-- Fuelled worker for `scanB` (fuel makes the recursion structural, so the
kernel can evaluate it; `scanB` supplies enough fuel). -/
def scanBGo (bad : Char → Bool) (opn cls : List Char) : ℕ → List Char → List (List Char) × List Char
  | 0, _ => ([], [])
  | _ + 1, [] => ([], [])
  | fuel + 1, c :: rest =>
    match tryMatch bad opn cls (c :: rest) with
    | some (p, r) =>
      let x := scanBGo bad opn cls fuel r
      (p :: x.1, x.2)
    | none =>
      let x := scanBGo bad opn cls fuel rest
      (x.1, c :: x.2)

/-- Left-to-right scan for non-overlapping matches of the marker regex
`opn(.*?)cls`, exactly as `re.finditer` / `re.sub(pattern, "", s)` find them:
returns the list of match payloads in order, and `s` with every match removed. -/
def scanB (bad : Char → Bool) (opn cls : List Char) (s : List Char) :
    List (List Char) × List Char :=
  scanBGo bad opn cls s.length s

theorem scanBGo_fuel (bad : Char → Bool) (opn cls : List Char) :
    ∀ fuel fuel' s, s.length ≤ fuel → s.length ≤ fuel' →
      scanBGo bad opn cls fuel s = scanBGo bad opn cls fuel' s := by
  intro fuel
  induction fuel with
  | zero =>
    intro fuel' s hs hs'
    have : s = [] := List.length_eq_zero.mp (Nat.le_zero.mp hs)
    subst this
    cases fuel' <;> rfl
  | succ fuel ih =>
    intro fuel' s hs hs'
    cases s with
    | nil => cases fuel' <;> rfl
    | cons c rest =>
      cases fuel' with
      | zero => simp at hs'
      | succ fuel'' =>
        rw [scanBGo, scanBGo]
        cases htm : tryMatch bad opn cls (c :: rest) with
        | some pr =>
          obtain ⟨p, r⟩ := pr
          have hr := tryMatch_length bad opn cls (c :: rest) p r htm
          simp only [List.length_cons] at hr hs hs'
          dsimp only
          rw [ih fuel'' r (by omega) (by omega)]
        | none =>
          simp only [List.length_cons] at hs hs'
          dsimp only
          rw [ih fuel'' rest (by omega) (by omega)]

theorem scanB_nil (bad : Char → Bool) (opn cls : List Char) :
    scanB bad opn cls [] = ([], []) := rfl

theorem scanB_cons (bad : Char → Bool) (opn cls : List Char) (c : Char) (rest : List Char) :
    scanB bad opn cls (c :: rest) =
      match tryMatch bad opn cls (c :: rest) with
      | some (p, r) => (p :: (scanB bad opn cls r).1, (scanB bad opn cls r).2)
      | none => ((scanB bad opn cls rest).1, c :: (scanB bad opn cls rest).2) := by
  rw [scanB, List.length_cons, scanBGo]
  cases htm : tryMatch bad opn cls (c :: rest) with
  | some pr =>
    obtain ⟨p, r⟩ := pr
    have hr := tryMatch_length bad opn cls (c :: rest) p r htm
    simp only [List.length_cons] at hr
    dsimp only
    rw [scanBGo_fuel bad opn cls rest.length r.length r (by omega) (by omega)]
    rfl
  | none => rfl

/-- Does `s` contain a match of the marker regex `opn(.*?)cls` anywhere? -/
def hasMatchB (bad : Char → Bool) (opn cls : List Char) : List Char → Bool
  | [] => false
  | c :: rest =>
    (tryMatch bad opn cls (c :: rest)).isSome || hasMatchB bad opn cls rest

/-- `re.compile(r"<!--MEMORY:(\{.*?\})-->", re.DOTALL)`: opening literal
(including the brace opening the JSON group). -/
def memOpn : List Char := "<!--MEMORY:\x7b".data

/-- Closing literal of the MEMORY marker regex. -/
def memCls : List Char := "\x7d-->".data

/-- `re.compile(r"<!--PERSONAL_LOG:(.*?)-->", re.DOTALL)`: opening literal. -/
def plogOpn : List Char := "<!--PERSONAL_LOG:".data

/-- Closing literal of the PERSONAL_LOG marker regex. -/
def plogCls : List Char := "-->".data

/-- `r"<!--NEXT_MENTIONS:(\[.*?\])-->"` (no DOTALL): opening literal. -/
def nmOpn : List Char := "<!--NEXT_MENTIONS:[".data

/-- Closing literal of the NEXT_MENTIONS marker regex. -/
def nmCls : List Char := "]-->".data

/-- A DOTALL pattern: `.` matches every character. -/
def noBad : Char → Bool := fun _ => false

/-- A pattern compiled without DOTALL: `.` refuses the newline. -/
def nmBad : Char → Bool := fun c => c == '\n'

theorem leadEq_append_self : ∀ l t : List Char, leadEq l (l ++ t) = true := by
  intro l
  induction l with
  | nil => intro t; rfl
  | cons a as ih => intro t; rw [List.cons_append, leadEq]; simp [ih t]

theorem exists_of_leadEq : ∀ l t : List Char, leadEq l t = true → ∃ u, t = l ++ u := by
  intro l
  induction l with
  | nil => exact fun t _ => ⟨t, rfl⟩
  | cons a as ih =>
    intro t h
    cases t with
    | nil => simp [leadEq] at h
    | cons b bs =>
      rw [leadEq, Bool.and_eq_true, beq_iff_eq] at h
      obtain ⟨rfl, h2⟩ := h
      obtain ⟨u, hu⟩ := ih bs h2
      exact ⟨u, by rw [hu, List.cons_append]⟩

/-- A close literal ending in `>` cannot match strictly inside a body that
contains no `>` (the key fact making the lazy scan stop exactly at a
well-delimited marker's closing literal). -/
theorem not_leadEq_close (cs : List Char) (hcs : '>' ∉ cs) (c : Char) (p' s : List Char)
    (hp : '>' ∉ c :: p') :
    leadEq (cs ++ ['>']) (c :: (p' ++ ((cs ++ ['>']) ++ s))) = false := by
  by_contra hfalse
  have h' : leadEq (cs ++ ['>']) (c :: (p' ++ ((cs ++ ['>']) ++ s))) = true := by
    cases hb : leadEq (cs ++ ['>']) (c :: (p' ++ ((cs ++ ['>']) ++ s)))
    · exact absurd hb hfalse
    · rfl
  obtain ⟨u, hu⟩ := exists_of_leadEq _ _ h'
  have hu' : c :: (p' ++ ((cs ++ ['>']) ++ s)) = cs ++ '>' :: u := by
    rw [hu, List.append_assoc, List.singleton_append]
  have hr : (cs ++ '>' :: u)[cs.length]? = some '>' := by
    rw [List.getElem?_append_right (le_refl cs.length)]
    simp
  rw [← hu'] at hr
  cases hcl : cs.length with
  | zero =>
    rw [hcl] at hr
    simp only [List.getElem?_cons_zero, Option.some.injEq] at hr
    exact hp (hr ▸ List.mem_cons_self c p')
  | succ n =>
    rw [hcl, List.getElem?_cons_succ] at hr
    by_cases hn : n < p'.length
    · rw [List.getElem?_append_left hn] at hr
      exact hp (List.mem_cons_of_mem c (List.getElem?_mem hr))
    · push_neg at hn
      rw [List.getElem?_append_right hn, List.append_assoc,
        List.getElem?_append_left (by omega : n - p'.length < cs.length)] at hr
      exact hcs (List.getElem?_mem hr)

theorem splitFirstB_self (bad : Char → Bool) (c : Char) (cs s : List Char) :
    splitFirstB bad (c :: cs) ((c :: cs) ++ s) = some ([], s) := by
  rw [List.cons_append, splitFirstB]
  split
  · rw [List.length_cons, List.drop_succ_cons, List.drop_left]
  · rename_i h
    exact absurd ⟨List.cons_ne_nil c cs,
      by rw [← List.cons_append]; exact leadEq_append_self (c :: cs) s⟩ h

theorem splitFirstB_append (bad : Char → Bool) (cs : List Char) (hcs : '>' ∉ cs) :
    ∀ p, '>' ∉ p → (∀ c ∈ p, bad c = false) → ∀ s,
      splitFirstB bad (cs ++ ['>']) (p ++ ((cs ++ ['>']) ++ s)) = some (p, s) := by
  intro p
  induction p with
  | nil =>
    intro _ _ s
    rw [List.nil_append]
    cases cs with
    | nil => exact splitFirstB_self bad '>' [] s
    | cons a as => exact splitFirstB_self bad a (as ++ ['>']) s
  | cons c p' ih =>
    intro hp hbad s
    rw [List.cons_append, splitFirstB]
    rw [if_neg ?hneg]
    case hneg =>
      intro hcond
      have := not_leadEq_close cs hcs c p' s hp
      rw [this] at hcond
      exact Bool.false_ne_true hcond.2
    rw [if_neg ?hbneg]
    case hbneg =>
      rw [hbad c (List.mem_cons_self c p')]
      simp
    rw [ih (fun hx => hp (List.mem_cons_of_mem c hx))
      (fun d hd => hbad d (List.mem_cons_of_mem c hd)) s]

theorem tryMatch_consume (bad : Char → Bool) (o : Char) (os cs : List Char) (hcs : '>' ∉ cs)
    (p : List Char) (hp : '>' ∉ p) (hbad : ∀ c ∈ p, bad c = false) (s : List Char) :
    tryMatch bad (o :: os) (cs ++ ['>']) ((o :: os) ++ (p ++ ((cs ++ ['>']) ++ s))) =
      some (p, s) := by
  rw [tryMatch, if_pos (leadEq_append_self (o :: os) _), List.drop_left]
  exact splitFirstB_append bad cs hcs p hp hbad s

theorem tryMatch_none_head (bad : Char → Bool) (opn cls : List Char)
    (ho : ∃ os, opn = '<' :: os) (c : Char) (hc : c ≠ '<') (rest : List Char) :
    tryMatch bad opn cls (c :: rest) = none := by
  obtain ⟨os, rfl⟩ := ho
  rw [tryMatch, if_neg]
  intro h
  rw [leadEq, Bool.and_eq_true, beq_iff_eq] at h
  exact hc h.1.symm

/-- Characters other than `<` pass through the marker scan unharmed. -/
theorem scanB_pass (bad : Char → Bool) (opn cls : List Char) (ho : ∃ os, opn = '<' :: os) :
    ∀ t, (∀ c ∈ t, c ≠ '<') → ∀ s,
      scanB bad opn cls (t ++ s) = ((scanB bad opn cls s).1, t ++ (scanB bad opn cls s).2) := by
  intro t
  induction t with
  | nil => intro _ s; simp
  | cons c t' ih =>
    intro ht s
    rw [List.cons_append, scanB_cons,
      tryMatch_none_head bad opn cls ho c (ht c (List.mem_cons_self c t')) _]
    dsimp only
    rw [ih (fun d hd => ht d (List.mem_cons_of_mem c hd)) s, List.cons_append]

/-- A well-delimited marker at the head of the text is matched and removed
exactly, and the scan resumes right after it. -/
theorem scanB_consume (bad : Char → Bool) (o : Char) (os cs : List Char) (hcs : '>' ∉ cs)
    (p : List Char) (hp : '>' ∉ p) (hbad : ∀ c ∈ p, bad c = false) (s : List Char) :
    scanB bad (o :: os) (cs ++ ['>']) ((o :: os) ++ (p ++ ((cs ++ ['>']) ++ s))) =
      (p :: (scanB bad (o :: os) (cs ++ ['>']) s).1,
        (scanB bad (o :: os) (cs ++ ['>']) s).2) := by
  rw [List.cons_append, scanB_cons, ← List.cons_append,
    tryMatch_consume bad o os cs hcs p hp hbad s]

theorem hasMatchB_eq_false (bad : Char → Bool) (opn cls : List Char)
    (ho : ∃ os, opn = '<' :: os) :
    ∀ s, (∀ c ∈ s, c ≠ '<') → hasMatchB bad opn cls s = false := by
  intro s
  induction s with
  | nil => intro _; rfl
  | cons c rest ih =>
    intro hs
    rw [hasMatchB,
      tryMatch_none_head bad opn cls ho c (hs c (List.mem_cons_self c rest)) rest]
    simp only [Option.isSome_none, Bool.false_or]
    exact ih fun d hd => hs d (List.mem_cons_of_mem c hd)

/-- The `Literal` of `MemoryEntry.memory_type` (`src/memory/store.py`). -/
inductive MemType where
  | decision
  | requirement
  | task
  | issue
  | summary
deriving DecidableEq

/-- `MemoryEntry` (`src/memory/store.py`); `importance` defaults to 0.5. -/
structure MemoryEntry where
  id : String := ""
  session_id : String := ""
  content : List Char := []
  memory_type : MemType := .summary
  importance : ℚ := 1 / 2
  source_message_id : String := ""
deriving DecidableEq

/-- The result of `json.loads` on a MEMORY marker payload, already projected
through `mem.get("type", "summary")` / `mem.get("content", "")` /
`float(mem.get("importance", 0.7))`.  The parser itself stays an abstract
parameter `pj : List Char → Option MemData`; `none` models
`json.JSONDecodeError` (the marker is logged and skipped). -/
structure MemData where
  content : List Char := []
  memory_type : MemType := .summary
  importance : ℚ := 7 / 10
deriving DecidableEq

/-- What `Orchestrator._process_memory_markers` produces from one agent
output: parsed MEMORY dicts, PERSONAL_LOG bodies, the cleaned content that
gets persisted, and the `MemoryEntry` records written to the store. -/
structure ProcessResult where
  sessionMemories : List MemData
  personalLogs : List (List Char)
  cleaned : List Char
  storedEntries : List MemoryEntry
deriving DecidableEq

/-- `group(1)` of each MEMORY marker match, in order: the brace-delimited
payload (the regex group includes both braces). -/
def memMarkerPayloads (content : List Char) : List (List Char) :=
  ((scanB noBad memOpn memCls content).1).map (fun p => '{' :: (p ++ ['}']))

/-- Stripped non-empty `group(1)` of each PERSONAL_LOG marker match. -/
def plogMarkerBodies (content : List Char) : List (List Char) :=
  ((scanB noBad plogOpn plogCls content).1).filterMap
    (fun p => if pyStrip p = [] then none else some (pyStrip p))

/-- `Orchestrator._process_memory_markers` (orchestrator.py:274-346), with
`json.loads` abstracted as `pj`: parse all MEMORY markers (malformed ones are
skipped), collect PERSONAL_LOG bodies, strip both marker kinds from the
content (then `.strip()`), and build the `MemoryEntry` records that are saved
(entries whose stripped content is empty are skipped). -/
def processMarkers (pj : List Char → Option MemData) (groupId agentId : String)
    (content : List Char) : ProcessResult :=
  let sessionMemories := (memMarkerPayloads content).filterMap pj
  let cleaned :=
    pyStrip ((scanB noBad plogOpn plogCls ((scanB noBad memOpn memCls content).2)).2)
  let stored := sessionMemories.filterMap (fun m =>
    if pyStrip m.content = [] then none
    else some { session_id := groupId, content := pyStrip m.content,
                memory_type := m.memory_type, importance := m.importance,
                source_message_id := agentId })
  ⟨sessionMemories, plogMarkerBodies content, cleaned, stored⟩

/-- A decomposition of an agent output into literal text and well-delimited
markers, used to state for which contents the marker stripping is complete. -/
inductive Seg where
  | plain (t : List Char)
  | mem (p : List Char)
  | plog (p : List Char)

def Seg.render : Seg → List Char
  | .plain t => t
  | .mem p => memOpn ++ p ++ memCls
  | .plog p => plogOpn ++ p ++ plogCls

def Seg.isMem : Seg → Bool
  | .mem _ => true
  | _ => false

def Seg.isPlog : Seg → Bool
  | .plog _ => true
  | _ => false

/-- Well-delimited segments: literal text holds no `<` (so no marker can begin
inside it), and marker payloads hold neither `<` nor `>` (so the lazy scan
closes exactly at the marker's own `-->`). -/
def Seg.WF : Seg → Prop
  | .plain t => ∀ c ∈ t, c ≠ '<'
  | .mem p => '>' ∉ p ∧ '<' ∉ p
  | .plog p => '>' ∉ p ∧ '<' ∉ p

def renderSegs (l : List Seg) : List Char := (l.map Seg.render).flatten

theorem renderSegs_nil : renderSegs [] = [] := rfl

theorem renderSegs_cons (sg : Seg) (l : List Seg) :
    renderSegs (sg :: l) = sg.render ++ renderSegs l := by
  simp [renderSegs]

/-- The MEMORY pass over well-delimited content: it collects exactly the
MEMORY payloads and removes exactly the MEMORY markers. -/
theorem scanB_mem_segs : ∀ l : List Seg, (∀ sg ∈ l, sg.WF) →
    scanB noBad memOpn memCls (renderSegs l) =
      (l.filterMap (fun sg => match sg with | .mem p => some p | _ => none),
       renderSegs (l.filter (fun sg => !sg.isMem))) := by
  intro l
  induction l with
  | nil => intro _; rfl
  | cons sg l' ih =>
    intro h
    have hsg := h sg (List.mem_cons_self sg l')
    have hl' : ∀ x ∈ l', x.WF := fun x hx => h x (List.mem_cons_of_mem _ hx)
    have ihl := ih hl'
    cases sg with
    | plain t =>
      rw [renderSegs_cons]
      show scanB noBad memOpn memCls (t ++ renderSegs l') = _
      rw [scanB_pass noBad memOpn memCls ⟨_, rfl⟩ t hsg (renderSegs l'), ihl]
      simp [List.filter_cons, List.filterMap_cons, Seg.isMem, renderSegs_cons, Seg.render]
    | mem p =>
      rw [renderSegs_cons]
      have hshape : (Seg.mem p).render ++ renderSegs l' =
          memOpn ++ (p ++ (memCls ++ renderSegs l')) := by
        simp [Seg.render, List.append_assoc]
      rw [hshape]
      have hopn : memOpn = '<' :: "!--MEMORY:\x7b".data := rfl
      have hcls : memCls = ['}', '-', '-'] ++ ['>'] := rfl
      rw [hopn, hcls,
        scanB_consume noBad '<' "!--MEMORY:\x7b".data ['}', '-', '-'] (by decide)
          p hsg.1 (fun c _ => rfl) (renderSegs l'),
        ← hopn, ← hcls, ihl]
      simp [List.filter_cons, List.filterMap_cons, Seg.isMem]
    | plog p =>
      rw [renderSegs_cons]
      have hshape : (Seg.plog p).render ++ renderSegs l' =
          '<' :: ("!--PERSONAL_LOG:".data ++ (p ++ (plogCls ++ renderSegs l'))) := by
        simp [Seg.render, plogOpn, List.append_assoc]
      rw [hshape, scanB_cons]
      have hnone : tryMatch noBad memOpn memCls
          ('<' :: ("!--PERSONAL_LOG:".data ++ (p ++ (plogCls ++ renderSegs l')))) = none := rfl
      rw [hnone]
      dsimp only
      have hfree : ∀ c ∈ "!--PERSONAL_LOG:".data ++ (p ++ plogCls), c ≠ '<' := by
        intro c hc
        rcases List.mem_append.mp hc with h1 | h2
        · exact (by decide : ∀ x ∈ "!--PERSONAL_LOG:".data, x ≠ '<') c h1
        · rcases List.mem_append.mp h2 with h3 | h4
          · exact fun hEq => hsg.2 (hEq ▸ h3)
          · exact (by decide : ∀ x ∈ plogCls, x ≠ '<') c h4
      have hassoc : "!--PERSONAL_LOG:".data ++ (p ++ (plogCls ++ renderSegs l')) =
          ("!--PERSONAL_LOG:".data ++ (p ++ plogCls)) ++ renderSegs l' := by
        simp [List.append_assoc]
      rw [hassoc, scanB_pass noBad memOpn memCls ⟨_, rfl⟩ _ hfree (renderSegs l'), ihl]
      simp [List.filter_cons, List.filterMap_cons, Seg.isMem, renderSegs_cons, Seg.render,
        plogOpn, List.append_assoc]

/-- The PERSONAL_LOG pass over well-delimited content: it collects exactly the
PERSONAL_LOG payloads and removes exactly the PERSONAL_LOG markers. -/
theorem scanB_plog_segs : ∀ l : List Seg, (∀ sg ∈ l, sg.WF) →
    scanB noBad plogOpn plogCls (renderSegs l) =
      (l.filterMap (fun sg => match sg with | .plog p => some p | _ => none),
       renderSegs (l.filter (fun sg => !sg.isPlog))) := by
  intro l
  induction l with
  | nil => intro _; rfl
  | cons sg l' ih =>
    intro h
    have hsg := h sg (List.mem_cons_self sg l')
    have hl' : ∀ x ∈ l', x.WF := fun x hx => h x (List.mem_cons_of_mem _ hx)
    have ihl := ih hl'
    cases sg with
    | plain t =>
      rw [renderSegs_cons]
      show scanB noBad plogOpn plogCls (t ++ renderSegs l') = _
      rw [scanB_pass noBad plogOpn plogCls ⟨_, rfl⟩ t hsg (renderSegs l'), ihl]
      simp [List.filter_cons, List.filterMap_cons, Seg.isPlog, renderSegs_cons, Seg.render]
    | plog p =>
      rw [renderSegs_cons]
      have hshape : (Seg.plog p).render ++ renderSegs l' =
          plogOpn ++ (p ++ (plogCls ++ renderSegs l')) := by
        simp [Seg.render, List.append_assoc]
      rw [hshape]
      have hopn : plogOpn = '<' :: "!--PERSONAL_LOG:".data := rfl
      have hcls : plogCls = ['-', '-'] ++ ['>'] := rfl
      rw [hopn, hcls,
        scanB_consume noBad '<' "!--PERSONAL_LOG:".data ['-', '-'] (by decide)
          p hsg.1 (fun c _ => rfl) (renderSegs l'),
        ← hopn, ← hcls, ihl]
      simp [List.filter_cons, List.filterMap_cons, Seg.isPlog]
    | mem p =>
      rw [renderSegs_cons]
      have hshape : (Seg.mem p).render ++ renderSegs l' =
          '<' :: ("!--MEMORY:\x7b".data ++ (p ++ (memCls ++ renderSegs l'))) := by
        simp [Seg.render, memOpn, List.append_assoc]
      rw [hshape, scanB_cons]
      have hnone : tryMatch noBad plogOpn plogCls
          ('<' :: ("!--MEMORY:\x7b".data ++ (p ++ (memCls ++ renderSegs l')))) = none := rfl
      rw [hnone]
      dsimp only
      have hfree : ∀ c ∈ "!--MEMORY:\x7b".data ++ (p ++ memCls), c ≠ '<' := by
        intro c hc
        rcases List.mem_append.mp hc with h1 | h2
        · exact (by decide : ∀ x ∈ "!--MEMORY:\x7b".data, x ≠ '<') c h1
        · rcases List.mem_append.mp h2 with h3 | h4
          · exact fun hEq => hsg.2 (hEq ▸ h3)
          · exact (by decide : ∀ x ∈ memCls, x ≠ '<') c h4
      have hassoc : "!--MEMORY:\x7b".data ++ (p ++ (memCls ++ renderSegs l')) =
          ("!--MEMORY:\x7b".data ++ (p ++ memCls)) ++ renderSegs l' := by
        simp [List.append_assoc]
      rw [hassoc, scanB_pass noBad plogOpn plogCls ⟨_, rfl⟩ _ hfree (renderSegs l'), ihl]
      simp [List.filter_cons, List.filterMap_cons, Seg.isPlog, renderSegs_cons, Seg.render,
        memOpn, List.append_assoc]

theorem renderSegs_no_lt (l : List Seg)
    (h : ∀ sg ∈ l, sg.WF ∧ sg.isMem = false ∧ sg.isPlog = false) :
    ∀ c ∈ renderSegs l, c ≠ '<' := by
  induction l with
  | nil => intro c hc; rw [renderSegs_nil] at hc; cases hc
  | cons sg l' ih =>
    intro c hc
    rw [renderSegs_cons] at hc
    have hsg := h sg (List.mem_cons_self sg l')
    rcases List.mem_append.mp hc with h1 | h2
    · cases sg with
      | plain t => exact hsg.1 c h1
      | mem p => cases hsg.2.1
      | plog p => cases hsg.2.2
    · exact ih (fun x hx => h x (List.mem_cons_of_mem _ hx)) c h2

theorem mem_of_mem_pyStrip (s : List Char) (c : Char) (h : c ∈ pyStrip s) : c ∈ s := by
  rw [pyStrip] at h
  rw [List.mem_reverse] at h
  have h1 := (List.dropWhile_sublist pyIsSpace).mem h
  rw [List.mem_reverse] at h1
  exact (List.dropWhile_sublist pyIsSpace).mem h1

/-- Worker for `str.split()` with an accumulator holding the reversed current
word (structural, so the kernel can evaluate it). -/
def pyWordsGo (cur : List Char) : List Char → List (List Char)
  | [] => if cur = [] then [] else [cur.reverse]
  | c :: rest =>
    if pyIsSpace c then
      if cur = [] then pyWordsGo [] rest else cur.reverse :: pyWordsGo [] rest
    else pyWordsGo (c :: cur) rest

/-- Python `str.split()` with no separator: maximal whitespace-free runs. -/
def pyWords (s : List Char) : List (List Char) := pyWordsGo [] s

/-- `set(text.lower().split())`; the lowercasing function `lc` (Python
`str.lower`) is kept abstract and is the same for query and entry content. -/
def tokenFinset (lc : Char → Char) (s : List Char) : Finset (List Char) :=
  (pyWords (s.map lc)).toFinset

/-- The retrieval score of `MemoryStore.search_memory` (store.py:64-69):
`overlap * 0.5 + importance * 0.5`. -/
def memScore (lc : Char → Char) (qs : Finset (List Char)) (e : MemoryEntry) : ℚ :=
  ((qs ∩ tokenFinset lc e.content).card : ℚ) * (1 / 2) + e.importance * (1 / 2)

/-- Insertion step of a stable descending sort on the score component:
an element moves left past strictly smaller scores only, so elements with
equal scores keep their original relative order — exactly the behaviour of
Python's stable `list.sort(key=lambda x: x[0], reverse=True)`. -/
def insertScoredDesc (x : ℚ × MemoryEntry) :
    List (ℚ × MemoryEntry) → List (ℚ × MemoryEntry)
  | [] => [x]
  | y :: ys => if y.1 ≤ x.1 then x :: y :: ys else y :: insertScoredDesc x ys

/-- Stable descending sort by score (model of Python's stable sort with
`reverse=True`; a stable sort for a total preorder is unique, so insertion
sort and timsort agree). -/
def sortScoredDesc : List (ℚ × MemoryEntry) → List (ℚ × MemoryEntry)
  | [] => []
  | x :: xs => insertScoredDesc x (sortScoredDesc xs)

/-- The scoring loop body of `search_memory` (store.py:66-71): an entry is
kept, paired with its score, exactly when the score is positive. -/
def scoreFilter (lc : Char → Char) (qs : Finset (List Char)) (e : MemoryEntry) :
    Option (ℚ × MemoryEntry) :=
  if 0 < memScore lc qs e then some (memScore lc qs e, e) else none

/-- `MemoryStore.search_memory` (store.py:56-74) given the already-loaded
entry list of the session file, in insertion order. -/
def searchMemory (lc : Char → Char) (entries : List MemoryEntry) (query : List Char)
    (topK : ℕ) : List MemoryEntry :=
  if entries = [] then []
  else
    ((sortScoredDesc (entries.filterMap
        (scoreFilter lc (tokenFinset lc query)))).take topK).map Prod.snd

theorem mem_insertScoredDesc (x y : ℚ × MemoryEntry) :
    ∀ l, (y ∈ insertScoredDesc x l ↔ y = x ∨ y ∈ l) := by
  intro l
  induction l with
  | nil => simp [insertScoredDesc]
  | cons z zs ih =>
    rw [insertScoredDesc]
    split
    · simp
    · simp only [List.mem_cons, ih]
      tauto

theorem pairwise_insertScoredDesc (x : ℚ × MemoryEntry) :
    ∀ l, l.Pairwise (fun a b => b.1 ≤ a.1) →
      (insertScoredDesc x l).Pairwise (fun a b => b.1 ≤ a.1) := by
  intro l
  induction l with
  | nil => intro _; simp [insertScoredDesc]
  | cons y ys ih =>
    intro h
    rw [List.pairwise_cons] at h
    rw [insertScoredDesc]
    split
    · rename_i hyx
      rw [List.pairwise_cons]
      constructor
      · intro z hz
        rcases List.mem_cons.mp hz with rfl | hz'
        · exact hyx
        · exact le_trans (h.1 z hz') hyx
      · rw [List.pairwise_cons]
        exact h
    · rename_i hyx
      push_neg at hyx
      rw [List.pairwise_cons]
      constructor
      · intro z hz
        rcases (mem_insertScoredDesc x z ys).mp hz with rfl | hz'
        · exact le_of_lt hyx
        · exact h.1 z hz'
      · exact ih h.2

theorem pairwise_sortScoredDesc :
    ∀ l, (sortScoredDesc l).Pairwise (fun a b => b.1 ≤ a.1) := by
  intro l
  induction l with
  | nil => simp [sortScoredDesc]
  | cons x xs ih => exact pairwise_insertScoredDesc x (sortScoredDesc xs) ih

theorem mem_sortScoredDesc (y : ℚ × MemoryEntry) :
    ∀ l, (y ∈ sortScoredDesc l ↔ y ∈ l) := by
  intro l
  induction l with
  | nil => simp [sortScoredDesc]
  | cons x xs ih =>
    rw [sortScoredDesc, mem_insertScoredDesc, ih, List.mem_cons]

/-- Stability, phrased per score class: inserting does not change the
subsequence of any fixed score value beyond placing the new element first. -/
theorem filter_insertScoredDesc (v : ℚ) (x : ℚ × MemoryEntry) :
    ∀ l, (insertScoredDesc x l).filter (fun y => decide (y.1 = v)) =
      (x :: l).filter (fun y => decide (y.1 = v)) := by
  intro l
  induction l with
  | nil => rfl
  | cons y ys ih =>
    rw [insertScoredDesc]
    split
    · rfl
    · rename_i hyx
      push_neg at hyx
      by_cases hx : x.1 = v
      · have hy : ¬(y.1 = v) := by
          intro hy
          rw [hx, hy] at hyx
          exact absurd hyx (lt_irrefl v)
        simp [List.filter_cons, hx, hy, ih]
      · simp [List.filter_cons, hx, ih]

/-- A stable sort preserves every score class as a subsequence. -/
theorem filter_sortScoredDesc (v : ℚ) :
    ∀ l, (sortScoredDesc l).filter (fun y => decide (y.1 = v)) =
      l.filter (fun y => decide (y.1 = v)) := by
  intro l
  induction l with
  | nil => rfl
  | cons x xs ih =>
    rw [sortScoredDesc, filter_insertScoredDesc, List.filter_cons, List.filter_cons, ih]

/-- `ExecutionMeta` (`src/models/protocol.py:51-60`). -/
structure ExecutionMeta where
  duration_ms : ℤ := 0
  cost_usd : ℚ := 0
  num_turns : ℕ := 0
  input_tokens : ℕ := 0
  output_tokens : ℕ := 0
  is_error : Bool := false
deriving DecidableEq

/-- `AgentOutput` (`src/models/protocol.py:91-100`); `execution_meta` is
`None` unless an adapter fills it. -/
structure AgentOutput where
  content : List Char := []
  next_mentions : List String := []
  should_respond : Bool := true
  execution_meta : Option ExecutionMeta := none
  prompt_sent : List Char := []
deriving DecidableEq

/-- The three ordinary adapter failures of §`invoke`: subprocess timeout,
missing executable (`FileNotFoundError`), and a non-zero exit code with the
captured (already stripped) stderr/stdout. -/
inductive AdapterFailure where
  | timeout
  | executableNotFound
  | nonZeroExit (stderr stdout : List Char)

/-- `ClaudeCliAdapter.invoke` failure returns (claude_cli.py:96-129): every
sentinel leaves `execution_meta = none`.  `err or raw_output` is Python's
falsy-or. -/
def claudeFailureOutput : AdapterFailure → AgentOutput
  | .timeout => { content := "[Timeout] CLI 响应超时".data }
  | .executableNotFound =>
      { content := "[Error] claude 命令未找到，请确认已安装 Claude Code CLI".data }
  | .nonZeroExit err raw =>
      { content := "[CLI Error] ".data ++ (if err ≠ [] then err else raw) }

/-- `CursorCliAdapter.invoke` failure returns (cursor_cli.py:154-207): only
the non-zero-exit path constructs an `ExecutionMeta` (with
`is_error := true`); timeout and missing executable leave it `none`. -/
def cursorFailureOutput (durationMs : ℤ) (prompt : List Char) :
    AdapterFailure → AgentOutput
  | .timeout => { content := "[Timeout] CLI 响应超时".data }
  | .executableNotFound =>
      { content :=
          "[Error] agent 命令未找到，请先安装 Cursor CLI：https://cursor.com/docs/cli/installation".data }
  | .nonZeroExit err raw =>
      { content := "[CLI Error] ".data ++ (if err ≠ [] then err else raw),
        execution_meta := some { duration_ms := durationMs, is_error := true },
        prompt_sent := prompt }

/-- The `is_error` flag a reader of the output would observe (`false` when no
`execution_meta` was attached at all). -/
def metaIsError (o : AgentOutput) : Bool :=
  match o.execution_meta with
  | some m => m.is_error
  | none => false

/-- The NEXT_MENTIONS step shared by `ClaudeCliAdapter._parse_output`
(claude_cli.py:248-255) and `CursorCliAdapter._parse_output`
(cursor_cli.py:346-353): `re.search` on a pattern compiled WITHOUT `re.DOTALL`
finds the FIRST match; its bracketed group is parsed as JSON (`pj`; a parse
failure is swallowed and leaves `[]`); when a match was found, `re.sub`
removes every match and the content is stripped, otherwise the content is
returned unchanged. -/
def cliExtractNextMentions (pj : List Char → Option (List String)) (content : List Char) :
    List String × List Char :=
  match (scanB nmBad nmOpn nmCls content).1.head? with
  | some payload =>
      ((pj ('[' :: (payload ++ [']']))).getD [], pyStrip (scanB nmBad nmOpn nmCls content).2)
  | none => ([], content)

/-- The bracketed group the adapter actually extracts (first match, newline
intolerant), for comparison with the spec's description. -/
def cliFirstMentionPayload (content : List Char) : Option (List Char) :=
  ((scanB nmBad nmOpn nmCls content).1.map (fun p => '[' :: (p ++ [']']))).head?

/-- Modelled from the spec: "Extract the last `<!--NEXT_MENTIONS:[…]-->`
marker (if any) with a regex that tolerates newlines in content" — the LAST
match of a DOTALL-style scan.  Defined only to compare the spec's words with
the code's behaviour. -/
def specLastMentionPayload (content : List Char) : Option (List Char) :=
  ((scanB noBad nmOpn nmCls content).1.map (fun p => '[' :: (p ++ [']']))).getLast?

/-- `AgentProfile` (`src/models/agent.py`), the fields the claims touch. -/
structure AgentProfile where
  agent_id : String
  name : String := ""
  workspace_dir : String := ""
  role_prompt : String := ""
  skills : List String := []
deriving DecidableEq

/-- `AgentRegistry.get_agent` (agent_registry.py:74-78): raises `KeyError`
for an unknown id — its own docstring and `tests/test_registry.py` assert
exactly this. -/
def registryGetAgent (reg : List (String × AgentProfile)) (agentId : String) :
    Except String AgentProfile :=
  match reg.lookup agentId with
  | some p => .ok p
  | none => .error ("Agent not found: " ++ agentId)

/-- `Peer` (`src/models/protocol.py:63-68`). -/
structure Peer where
  agent_id : String
  name : String := ""
  skills : List String := []
deriving DecidableEq

/-- The peer-list loop of `ContextBuilder.build_input`
(context_builder.py:74-84): skip the agent itself, then
`peer_profile = self.registry.get_agent(aid)` — which RAISES for an
unresolved id, so the loop's `if peer_profile:` guard is dead code and the
exception propagates out of the whole build. -/
def buildPeers (reg : List (String × AgentProfile)) (agentId : String)
    (roster : List String) : Except String (List Peer) :=
  roster.foldlM (fun acc aid =>
    if aid = agentId then pure acc
    else do
      let p ← registryGetAgent reg aid
      pure (acc ++ [{ agent_id := aid, name := p.name, skills := p.skills : Peer }])) []

/-- `GroupConfig` (`src/models/session.py:14-23`). -/
structure GroupConfig where
  max_responders : ℕ := 5
  turn_timeout_seconds : ℕ := 120
  chain_depth_limit : ℕ := 5
  re_invoke_already_replied : Bool := false
  supervisor_enabled : Bool := false
  supervisor_agent_id : String := "supervisor"
  auto_summary_interval : ℕ := 20
deriving DecidableEq

/-- `Turn` (orchestrator.py:44-60); the uuid `turn_id` is not modelled — all
messages saved by one `executeTurn` carry that turn's id. -/
structure Turn where
  trigger_source : String := ""
  must_reply_agents : List String := []
  may_reply_agents : List String := []
  group_agent_ids : List String := []
  max_responders : ℕ := 5
  timeout_seconds : ℕ := 120
  chain_depth : ℕ := 0
deriving DecidableEq

/-- Fuelled worker for `re.findall(r"(?:^|\s)@(\S+)", content)`: a token is
matched when `@` stands at the string start or right after a whitespace
character (which the match consumes), followed by a maximal non-empty run of
non-whitespace characters. -/
def findTokensGo : ℕ → Bool → List Char → List (List Char)
  | 0, _, _ => []
  | _ + 1, _, [] => []
  | fuel + 1, atStart, c :: rest =>
    if atStart ∧ c = '@' then
      (if rest.takeWhile (fun d => !pyIsSpace d) ≠ [] then
        rest.takeWhile (fun d => !pyIsSpace d) ::
          findTokensGo fuel false (rest.drop (rest.takeWhile (fun d => !pyIsSpace d)).length)
      else findTokensGo fuel false rest)
    else if pyIsSpace c then
      (match rest with
       | '@' :: rest2 =>
         if rest2.takeWhile (fun d => !pyIsSpace d) ≠ [] then
           rest2.takeWhile (fun d => !pyIsSpace d) ::
             findTokensGo fuel false (rest2.drop (rest2.takeWhile (fun d => !pyIsSpace d)).length)
         else findTokensGo fuel false rest
       | _ => findTokensGo fuel false rest)
    else findTokensGo fuel false rest

/-- The `re.findall` of `Orchestrator._parse_mentions` (orchestrator.py:429-430). -/
def findMentionTokens (content : List Char) : List (List Char) :=
  findTokensGo content.length true content

/-- The inner name-matching loop of `_parse_mentions` (orchestrator.py:437-441):
`registry.get_agent` raises for an unregistered member id. -/
def nameScan (reg : List (String × AgentProfile)) (tok : String) :
    List String → Except String (Option String)
  | [] => .ok none
  | aid :: rest => do
      let profile ← registryGetAgent reg aid
      if tok = profile.name then pure (some aid) else nameScan reg tok rest

/-- Token resolution of `_parse_mentions` (orchestrator.py:431-441):
`all`/`所有人` → the broadcast sentinel `@all`; exact agent id; exact display
name; otherwise dropped. -/
def resolveMentionToken (reg : List (String × AgentProfile)) (agentIds : List String)
    (tok : String) : Except String (Option String) :=
  if tok = "all" ∨ tok = "所有人" then .ok (some "@all")
  else if tok ∈ agentIds then .ok (some tok)
  else nameScan reg tok agentIds

/-- `Orchestrator._parse_mentions` (orchestrator.py:424-442). -/
def parseMentions (reg : List (String × AgentProfile)) (content : List Char)
    (agentIds : List String) : Except String (List String) :=
  (findMentionTokens content).foldlM (fun acc tokChars => do
      match ← resolveMentionToken reg agentIds (String.mk tokChars) with
      | some m => pure (acc ++ [m])
      | none => pure acc) []

/-- The must/may partition of `Orchestrator.on_new_message`
(orchestrator.py:118-130), including the final both-empty fallback. -/
def partitionMentions (parsed A : List String) : List String × List String :=
  let pair :=
    if "@all" ∈ parsed ∨ "@所有人" ∈ parsed then (A, ([] : List String))
    else (parsed.filter (fun m => m ∈ A),
          A.filter (fun m => m ∉ parsed.filter (fun m' => m' ∈ A)))
  if pair.1 = [] ∧ pair.2 = [] then (pair.1, A) else pair

/-- `Orchestrator.on_new_message` (orchestrator.py:90-148): caller-supplied
mentions win when non-empty (Python `mentions or self._parse_mentions(…)`),
then the partition builds the turn. -/
def onNewMessage (reg : List (String × AgentProfile)) (A : List String)
    (cfg : GroupConfig) (content : List Char) (authorId : String)
    (mentions : List String) : Except String Turn := do
  let parsed ← if mentions ≠ [] then pure mentions else parseMentions reg content A
  pure { trigger_source := authorId,
         must_reply_agents := (partitionMentions parsed A).1,
         may_reply_agents := (partitionMentions parsed A).2,
         group_agent_ids := A,
         max_responders := cfg.max_responders,
         timeout_seconds := cfg.turn_timeout_seconds,
         chain_depth := 0 }

/-- A message persisted by `session_manager.save_message` during a turn
(author, cleaned content, and the `next_mentions` metadata). -/
structure SavedMessage where
  author_id : String
  content : List Char
  next_mentions : List String
deriving DecidableEq

/-- Phase A of `execute_turn` (orchestrator.py:159-199): every `must_reply`
agent is invoked, one invocation per list entry; an exception (`invoke = none`)
is logged and skipped; each successful output has its markers processed and is
persisted — `should_respond` is NOT consulted in this phase. -/
def phaseASaved (pj : List Char → Option MemData) (gid : String)
    (invoke : String → Option AgentOutput) (t : Turn) : List SavedMessage :=
  t.must_reply_agents.filterMap (fun aid =>
    (invoke aid).map (fun out =>
      { author_id := aid, content := (processMarkers pj gid aid out.content).cleaned,
        next_mentions := out.next_mentions }))

/-- The agents Phase B of `execute_turn` actually invokes
(orchestrator.py:202-206): with `remaining = max_responders -
len(replied_agents)` (an `int`, possibly negative), when positive the first
`remaining` not-yet-replied `may_reply` agents. -/
def phaseBCandidates (pj : List Char → Option MemData) (gid : String)
    (invoke : String → Option AgentOutput) (t : Turn) : List String :=
  let repliedA := ((phaseASaved pj gid invoke t).map (fun m => m.author_id)).dedup
  if 0 < (t.max_responders : ℤ) - repliedA.length then
    (t.may_reply_agents.filter (fun aid => aid ∉ repliedA)).take
      ((t.max_responders : ℤ) - repliedA.length).toNat
  else []

/-- Phase B of `execute_turn` (orchestrator.py:201-246): the candidates are
invoked; an output is kept (markers processed, message persisted) only when
`should_respond` is true; exceptions are skipped. -/
def phaseBSaved (pj : List Char → Option MemData) (gid : String)
    (invoke : String → Option AgentOutput) (t : Turn) : List SavedMessage :=
  (phaseBCandidates pj gid invoke t).filterMap (fun aid =>
    (invoke aid).bind (fun out =>
      if out.should_respond then
        some { author_id := aid, content := (processMarkers pj gid aid out.content).cleaned,
               next_mentions := out.next_mentions }
      else none))

/-- The chain-limit notice broadcast by orchestrator.py:269-272. -/
def chainNotice (limit : ℕ) : String :=
  "自动对话已达到 " ++ toString limit ++ " 轮上限，等待人类指令。"

/-- Observable outcome of one `execute_turn` call: the messages persisted
with this turn's id, the chained turn (if one is opened), and the
`system_message` notice (if broadcast). -/
structure TurnResult where
  saved : List SavedMessage
  chained : Option Turn
  notice : Option String
deriving DecidableEq

/-- `Orchestrator.execute_turn` (orchestrator.py:150-272) for one turn, with
the recursive call on the chained turn replaced by returning that turn.
`invoke aid = none` models a raised/timeout invocation.  Each agent's outcome
is a function of its id (the gather of one phase invokes each list entry once;
python sets are modelled as deduplicated lists, so set statements below are
membership statements). -/
def executeTurn (pj : List Char → Option MemData) (gid : String)
    (invoke : String → Option AgentOutput) (A : List String) (cfg : GroupConfig)
    (t : Turn) : TurnResult :=
  let saved := phaseASaved pj gid invoke t ++ phaseBSaved pj gid invoke t
  let replied := (saved.map (fun m => m.author_id)).dedup
  let collected := ((saved.map (fun m => m.next_mentions)).flatten).dedup
  let nextM := if cfg.re_invoke_already_replied then collected
               else collected.filter (fun a => a ∉ replied)
  { saved := saved
    chained :=
      if nextM ≠ [] ∧ t.chain_depth < cfg.chain_depth_limit then
        some { trigger_source := "system", must_reply_agents := nextM,
               may_reply_agents := A.filter (fun a => a ∉ nextM ∧ a ∉ replied),
               group_agent_ids := A, max_responders := cfg.max_responders,
               timeout_seconds := cfg.turn_timeout_seconds,
               chain_depth := t.chain_depth + 1 }
      else none
    notice :=
      if cfg.chain_depth_limit ≤ t.chain_depth then some (chainNotice cfg.chain_depth_limit)
      else none }

/-- The set of agents that replied during the turn (authors of the
persisted messages), as the orchestrator's `replied_agents` set. -/
def turnReplied (r : TurnResult) : List String :=
  (r.saved.map (fun m => m.author_id)).dedup

/-- The union of the `next_mentions` of all persisted outputs
(`all_next_mentions`). -/
def turnCollectedMentions (r : TurnResult) : List String :=
  ((r.saved.map (fun m => m.next_mentions)).flatten).dedup

/-- `next` of the chaining step: the collected mentions, minus the agents who
already replied when `re_invoke_already_replied` is false. -/
def turnNext (cfg : GroupConfig) (r : TurnResult) : List String :=
  if cfg.re_invoke_already_replied then turnCollectedMentions r
  else (turnCollectedMentions r).filter (fun a => a ∉ turnReplied r)

/-- The final both-empty fallback of the partition is a no-op (`may` can only
be empty in the non-broadcast branch when `A` is empty), so the partition
always returns the branch pair directly. -/
theorem partitionMentions_eq (parsed A : List String) :
    partitionMentions parsed A =
      if "@all" ∈ parsed ∨ "@所有人" ∈ parsed then (A, ([] : List String))
      else (parsed.filter (fun m => m ∈ A),
            A.filter (fun m => m ∉ parsed.filter (fun m' => m' ∈ A))) := by
  by_cases hb : "@all" ∈ parsed ∨ "@所有人" ∈ parsed
  · by_cases hA : A = []
    · subst hA; simp [partitionMentions, hb]
    · simp [partitionMentions, hb, hA]
  · by_cases hA : A = []
    · subst hA; simp [partitionMentions, hb]
    · have hne : ¬(parsed.filter (fun m => m ∈ A) = [] ∧
          A.filter (fun m => m ∉ parsed.filter (fun m' => m' ∈ A)) = []) := by
        rintro ⟨h1, h2⟩
        rw [h1] at h2
        simp at h2
        exact hA h2
      simp only [partitionMentions, if_neg hb, if_neg hne]

/-- C1.  For every new message handled by `on_new_message`, with `A` the
group's agent members: a broadcast sentinel (`@all` or the localized synonym)
makes `must = A` and `may = ∅`; otherwise `must = mentions ∩ A` and
`may = A \ must`; and when both resulting sets are empty, `may` is all of `A`. -/
theorem partitionMentions_spec (parsed A : List String) :
    (("@all" ∈ parsed ∨ "@所有人" ∈ parsed) →
      (partitionMentions parsed A).1 = A ∧ (partitionMentions parsed A).2 = []) ∧
    (¬("@all" ∈ parsed ∨ "@所有人" ∈ parsed) →
      (∀ x, x ∈ (partitionMentions parsed A).1 ↔ x ∈ parsed ∧ x ∈ A) ∧
      (∀ x, x ∈ (partitionMentions parsed A).2 ↔
        x ∈ A ∧ x ∉ (partitionMentions parsed A).1)) ∧
    ((partitionMentions parsed A).1 = [] ∧ (partitionMentions parsed A).2 = [] →
      (partitionMentions parsed A).2 = A) := by
  refine ⟨?_, ?_, ?_⟩
  · intro hb
    rw [partitionMentions_eq, if_pos hb]
    exact ⟨rfl, rfl⟩
  · intro hnb
    rw [partitionMentions_eq, if_neg hnb]
    constructor
    · intro x
      simp [List.mem_filter]
    · intro x
      simp [List.mem_filter]
      tauto
  · intro h
    obtain ⟨h1, h2⟩ := h
    rw [partitionMentions_eq] at h1 h2 ⊢
    by_cases hb : "@all" ∈ parsed ∨ "@所有人" ∈ parsed
    · rw [if_pos hb] at h1 h2 ⊢
      exact h1.symm
    · rw [if_neg hb] at h1 h2 ⊢
      dsimp only at h1 h2 ⊢
      rw [h1] at h2
      simp only [List.not_mem_nil, not_false_eq_true] at h2
      simp at h2
      subst h2
      simp

/-- C2 (amended).  Must-replies are not quota-gated: a turn persists at most
`|must_reply_agents| + max_responders` agent messages; Phase B alone never
exceeds `max_responders`; and when `must_reply` is empty the whole turn obeys
the `max_responders` quota as originally claimed. -/
theorem turn_reply_quota (pj : List Char → Option MemData) (gid : String)
    (invoke : String → Option AgentOutput) (A : List String) (cfg : GroupConfig) (t : Turn) :
    (executeTurn pj gid invoke A cfg t).saved.length ≤
        t.must_reply_agents.length + t.max_responders ∧
    (phaseBSaved pj gid invoke t).length ≤ t.max_responders ∧
    (t.must_reply_agents = [] →
      (executeTurn pj gid invoke A cfg t).saved.length ≤ t.max_responders) := by
  have hsv : (executeTurn pj gid invoke A cfg t).saved =
      phaseASaved pj gid invoke t ++ phaseBSaved pj gid invoke t := rfl
  have hA : (phaseASaved pj gid invoke t).length ≤ t.must_reply_agents.length :=
    List.length_filterMap_le _ _
  have hcand : (phaseBCandidates pj gid invoke t).length ≤ t.max_responders := by
    rw [phaseBCandidates]
    split
    · refine le_trans (List.length_take_le _ _) ?_
      omega
    · simp
  have hB : (phaseBSaved pj gid invoke t).length ≤ t.max_responders :=
    le_trans (List.length_filterMap_le _ _) hcand
  refine ⟨?_, hB, ?_⟩
  · rw [hsv, List.length_append]
    omega
  · intro hmust
    have hA0 : phaseASaved pj gid invoke t = [] := by
      rw [phaseASaved, hmust]
      rfl
    rw [hsv, hA0, List.nil_append]
    exact hB

/-- C3.  After Phase B: a chained turn is opened iff `next` (the union of the
persisted outputs' `next_mentions`, minus already-replied agents when
`re_invoke_already_replied` is false) is non-empty and
`chain_depth < chain_depth_limit`; the chained turn has `must = next`,
`may = A \ next \ replied`, `chain_depth + 1`, `trigger_source = "system"`;
and the limit-naming system notice is broadcast iff
`chain_depth ≥ chain_depth_limit`. -/
theorem turn_chaining_spec (pj : List Char → Option MemData) (gid : String)
    (invoke : String → Option AgentOutput) (A : List String) (cfg : GroupConfig) (t : Turn) :
    ((executeTurn pj gid invoke A cfg t).chained.isSome = true ↔
      (turnNext cfg (executeTurn pj gid invoke A cfg t) ≠ [] ∧
       t.chain_depth < cfg.chain_depth_limit)) ∧
    (∀ nt, (executeTurn pj gid invoke A cfg t).chained = some nt →
      nt.must_reply_agents = turnNext cfg (executeTurn pj gid invoke A cfg t) ∧
      nt.may_reply_agents = A.filter (fun a =>
        a ∉ turnNext cfg (executeTurn pj gid invoke A cfg t) ∧
        a ∉ turnReplied (executeTurn pj gid invoke A cfg t)) ∧
      nt.chain_depth = t.chain_depth + 1 ∧
      nt.trigger_source = "system" ∧
      nt.max_responders = cfg.max_responders) ∧
    ((executeTurn pj gid invoke A cfg t).notice = some (chainNotice cfg.chain_depth_limit) ↔
      cfg.chain_depth_limit ≤ t.chain_depth) := by
  have hch : (executeTurn pj gid invoke A cfg t).chained =
      (if turnNext cfg (executeTurn pj gid invoke A cfg t) ≠ [] ∧
          t.chain_depth < cfg.chain_depth_limit then
        some { trigger_source := "system",
               must_reply_agents := turnNext cfg (executeTurn pj gid invoke A cfg t),
               may_reply_agents := A.filter (fun a =>
                 a ∉ turnNext cfg (executeTurn pj gid invoke A cfg t) ∧
                 a ∉ turnReplied (executeTurn pj gid invoke A cfg t)),
               group_agent_ids := A, max_responders := cfg.max_responders,
               timeout_seconds := cfg.turn_timeout_seconds,
               chain_depth := t.chain_depth + 1 }
      else none) := rfl
  have hnt : (executeTurn pj gid invoke A cfg t).notice =
      (if cfg.chain_depth_limit ≤ t.chain_depth then
        some (chainNotice cfg.chain_depth_limit) else none) := rfl
  refine ⟨?_, ?_, ?_⟩
  · rw [hch]
    split
    · rename_i hcond
      simp [hcond]
    · rename_i hcond
      simp [hcond]
  · intro nt hnteq
    rw [hch] at hnteq
    split at hnteq
    · rename_i hcond
      injection hnteq with hnteq
      subst hnteq
      exact ⟨rfl, rfl, rfl, rfl, rfl⟩
    · exact absurd hnteq (by simp)
  · rw [hnt]
    split
    · rename_i hcond
      simp [hcond]
    · rename_i hcond
      simp [hcond]

/-- C4 (amended).  For every agent output whose content decomposes into
well-delimited segments — literal text without `<`, and MEMORY/PERSONAL_LOG
markers whose payloads contain neither `<` nor `>` — the persisted content
contains no MEMORY marker and no PERSONAL_LOG marker, regardless of whether
the payload JSON was valid (`pj` is arbitrary).  (Without the delimitedness
hypothesis the removal can splice adjacent fragments into a fresh marker; see
the counterexample.) -/
theorem persisted_content_marker_free (pj : List Char → Option MemData) (gid aid : String)
    (l : List Seg) (h : ∀ sg ∈ l, sg.WF) :
    hasMatchB noBad memOpn memCls (processMarkers pj gid aid (renderSegs l)).cleaned = false ∧
    hasMatchB noBad plogOpn plogCls (processMarkers pj gid aid (renderSegs l)).cleaned = false := by
  have hWF1 : ∀ sg ∈ l.filter (fun sg => !sg.isMem), sg.WF := by
    intro sg hsg
    exact h sg (List.mem_of_mem_filter hsg)
  have e1 : (scanB noBad memOpn memCls (renderSegs l)).2 =
      renderSegs (l.filter (fun sg => !sg.isMem)) := by
    rw [scanB_mem_segs l h]
  have e2 : (scanB noBad plogOpn plogCls (renderSegs (l.filter (fun sg => !sg.isMem)))).2 =
      renderSegs ((l.filter (fun sg => !sg.isMem)).filter (fun sg => !sg.isPlog)) := by
    rw [scanB_plog_segs (l.filter (fun sg => !sg.isMem)) hWF1]
  have hc2 : (processMarkers pj gid aid (renderSegs l)).cleaned =
      pyStrip (renderSegs ((l.filter (fun sg => !sg.isMem)).filter (fun sg => !sg.isPlog))) := by
    show pyStrip ((scanB noBad plogOpn plogCls
        ((scanB noBad memOpn memCls (renderSegs l)).2)).2) = _
    rw [e1, e2]
  have hplains : ∀ sg ∈ (l.filter (fun sg => !sg.isMem)).filter (fun sg => !sg.isPlog),
      sg.WF ∧ sg.isMem = false ∧ sg.isPlog = false := by
    intro sg hsg
    have hm := List.mem_filter.mp hsg
    have hm2 := List.mem_filter.mp hm.1
    refine ⟨h sg hm2.1, ?_, ?_⟩
    · simpa using hm2.2
    · simpa using hm.2
  have hnolt := renderSegs_no_lt _ hplains
  have hstrip : ∀ c ∈ (processMarkers pj gid aid (renderSegs l)).cleaned, c ≠ '<' := by
    intro c hc
    rw [hc2] at hc
    exact hnolt c (mem_of_mem_pyStrip _ c hc)
  exact ⟨hasMatchB_eq_false noBad memOpn memCls ⟨_, rfl⟩ _ hstrip,
         hasMatchB_eq_false noBad plogOpn plogCls ⟨_, rfl⟩ _ hstrip⟩

/-- A content for which the two-pass removal splices a new MEMORY marker. -/
def spliceContent : List Char := "<!--MEMORY:<!--MEMORY:{a}-->{x}-->".data

/-- C4 counterexample.  On `<!--MEMORY:<!--MEMORY:{a}-->{x}-->` the
orchestrator removes only the inner marker; the persisted content is exactly
`<!--MEMORY:{x}-->` — a MEMORY marker — so the claim's universal statement is
false on the code. -/
theorem persisted_marker_splice_counterexample :
    (processMarkers (fun _ => none) "g" "a1" spliceContent).cleaned =
        "<!--MEMORY:{x}-->".data ∧
    hasMatchB noBad memOpn memCls
      (processMarkers (fun _ => none) "g" "a1" spliceContent).cleaned = true := by
  exact ⟨rfl, rfl⟩

/-- Witness segments for the amended C4: the spec's own scenario 5 content. -/
def c4Segs : List Seg :=
  [.plain "Decision made. ".data,
   .mem "\"type\": \"decision\", \"content\": \"use B-tree\", \"importance\": 0.9".data,
   .plog "tried B-tree".data]

theorem persisted_content_marker_free_witness :
    hasMatchB noBad memOpn memCls
      (processMarkers (fun _ => none) "g" "a1" (renderSegs c4Segs)).cleaned = false ∧
    hasMatchB noBad plogOpn plogCls
      (processMarkers (fun _ => none) "g" "a1" (renderSegs c4Segs)).cleaned = false := by
  refine persisted_content_marker_free (fun _ => none) "g" "a1" c4Segs ?_
  intro sg hsg
  simp only [c4Segs, List.mem_cons, List.not_mem_nil, or_false] at hsg
  rcases hsg with rfl | rfl | rfl
  · show ∀ c ∈ "Decision made. ".data, c ≠ '<'
    decide
  · exact ⟨by decide, by decide⟩
  · exact ⟨by decide, by decide⟩

/-- C5.  Malformed MEMORY markers are logged and skipped, never fatal: the
stored memories are exactly the successfully parsed payloads, in order; the
persisted content does not depend on the JSON parser at all; and every
successful must-reply invocation is persisted as a message in the turn,
whatever the parser did on its markers. -/
theorem malformed_marker_skip (pj pj' : List Char → Option MemData) (gid aid : String)
    (content : List Char) (invoke : String → Option AgentOutput) (A : List String)
    (cfg : GroupConfig) (t : Turn) :
    (processMarkers pj gid aid content).sessionMemories =
        (memMarkerPayloads content).filterMap pj ∧
    (processMarkers pj gid aid content).cleaned =
        (processMarkers pj' gid aid content).cleaned ∧
    (∀ aid' out, aid' ∈ t.must_reply_agents → invoke aid' = some out →
      ({ author_id := aid', content := (processMarkers pj gid aid' out.content).cleaned,
         next_mentions := out.next_mentions } : SavedMessage) ∈
        (executeTurn pj gid invoke A cfg t).saved) := by
  refine ⟨rfl, rfl, ?_⟩
  intro aid' out hmem hinv
  have hsv : (executeTurn pj gid invoke A cfg t).saved =
      phaseASaved pj gid invoke t ++ phaseBSaved pj gid invoke t := rfl
  rw [hsv]
  refine List.mem_append_left _ ?_
  rw [phaseASaved]
  refine List.mem_filterMap.mpr ⟨aid', hmem, ?_⟩
  rw [hinv]
  rfl

/-- Witness data for C5: one malformed and one valid MEMORY marker. -/
def c5Content : List Char := "ok <!--MEMORY:{bad}--><!--MEMORY:{good}-->".data

def c5pj : List Char → Option MemData := fun p =>
  if p = "{good}".data then
    some { content := "use B-tree".data, memory_type := .decision, importance := 9 / 10 }
  else none

def c5invoke : String → Option AgentOutput := fun _ => some { content := c5Content }

def c5Turn : Turn := { must_reply_agents := ["a1"] }

theorem malformed_marker_skip_witness :
    ({ author_id := "a1", content := (processMarkers c5pj "g" "a1" c5Content).cleaned,
       next_mentions := [] } : SavedMessage) ∈
      (executeTurn c5pj "g" c5invoke ["a1"] {} c5Turn).saved :=
  (malformed_marker_skip c5pj c5pj "g" "a1" c5Content c5invoke ["a1"] {} c5Turn).2.2
    "a1" { content := c5Content } (by decide) rfl

theorem scoreFilter_mem (lc : Char → Char) (qs : Finset (List Char)) :
    ∀ (entries : List MemoryEntry) x, x ∈ entries.filterMap (scoreFilter lc qs) →
      x.1 = memScore lc qs x.2 ∧ 0 < x.1 := by
  intro entries x hx
  obtain ⟨e, _, hfe⟩ := List.mem_filterMap.mp hx
  rw [scoreFilter] at hfe
  split at hfe
  · rename_i h0
    injection hfe with hfe
    subst hfe
    exact ⟨rfl, h0⟩
  · exact absurd hfe (by simp)

theorem scoreFilter_class_map (lc : Char → Char) (qs : Finset (List Char)) (v : ℚ)
    (hv : 0 < v) :
    ∀ entries : List MemoryEntry,
      ((entries.filterMap (scoreFilter lc qs)).filter
          (fun y => decide (y.1 = v))).map Prod.snd =
        entries.filter (fun e => decide (memScore lc qs e = v)) := by
  intro entries
  induction entries with
  | nil => rfl
  | cons e es ih =>
    by_cases h0 : 0 < memScore lc qs e
    · by_cases hev : memScore lc qs e = v
      · simp [List.filterMap_cons, scoreFilter, h0, List.filter_cons, hev, hv, ih]
      · simp [List.filterMap_cons, scoreFilter, h0, List.filter_cons, hev, ih]
    · have hev : ¬memScore lc qs e = v := fun he => h0 (he ▸ hv)
      simp [List.filterMap_cons, scoreFilter, h0, List.filter_cons, hev, ih]

/-- C6.  `search_memory` returns at most `k` entries; every returned entry has
strictly positive score `0.5·|Q ∩ C| + 0.5·importance`; the result is sorted
by that score descending; and ties keep insertion order: for every score
value, the returned entries with that score form a prefix of the entries with
that score in file (insertion) order. -/
theorem search_memory_spec (lc : Char → Char) (entries : List MemoryEntry)
    (query : List Char) (topK : ℕ) :
    (searchMemory lc entries query topK).length ≤ topK ∧
    (∀ e ∈ searchMemory lc entries query topK,
        0 < memScore lc (tokenFinset lc query) e) ∧
    (searchMemory lc entries query topK).Pairwise (fun a b =>
        memScore lc (tokenFinset lc query) b ≤ memScore lc (tokenFinset lc query) a) ∧
    (∀ v : ℚ, (searchMemory lc entries query topK).filter
        (fun e => decide (memScore lc (tokenFinset lc query) e = v)) <+:
      entries.filter (fun e => decide (memScore lc (tokenFinset lc query) e = v))) := by
  by_cases hnil : entries = []
  · subst hnil
    refine ⟨by simp [searchMemory], by simp [searchMemory], by simp [searchMemory], ?_⟩
    intro v
    simp only [searchMemory, if_pos rfl]
    exact List.nil_prefix
  · have hsm : searchMemory lc entries query topK =
        ((sortScoredDesc (entries.filterMap
          (scoreFilter lc (tokenFinset lc query)))).take topK).map Prod.snd := by
      rw [searchMemory, if_neg hnil]
    have hmemtake : ∀ x, x ∈ (sortScoredDesc (entries.filterMap
        (scoreFilter lc (tokenFinset lc query)))).take topK →
        x.1 = memScore lc (tokenFinset lc query) x.2 ∧ 0 < x.1 := by
      intro x hx
      have hx2 := (mem_sortScoredDesc x _).mp (List.mem_of_mem_take hx)
      exact scoreFilter_mem lc (tokenFinset lc query) entries x hx2
    refine ⟨?_, ?_, ?_, ?_⟩
    · rw [hsm, List.length_map]
      exact List.length_take_le _ _
    · intro e he
      rw [hsm] at he
      obtain ⟨x, hx, rfl⟩ := List.mem_map.mp he
      obtain ⟨heq, hpos⟩ := hmemtake x hx
      rw [← heq]
      exact hpos
    · rw [hsm]
      refine List.pairwise_map.mpr ?_
      have hp1 : ((sortScoredDesc (entries.filterMap
          (scoreFilter lc (tokenFinset lc query)))).take topK).Pairwise
          (fun a b => b.1 ≤ a.1) :=
        (pairwise_sortScoredDesc _).sublist (List.take_sublist _ _)
      refine hp1.imp_of_mem ?_
      intro a b ha hb hab
      rw [← (hmemtake a ha).1, ← (hmemtake b hb).1]
      exact hab
    · intro v
      by_cases hv : 0 < v
      · have htp := List.take_prefix topK (sortScoredDesc (entries.filterMap
            (scoreFilter lc (tokenFinset lc query))))
        have Haux := htp.filter (fun y => decide (y.1 = v))
        have hstep1 : (((sortScoredDesc (entries.filterMap
            (scoreFilter lc (tokenFinset lc query)))).take topK).filter
              (fun y => decide (y.1 = v))).map Prod.snd <+:
            ((sortScoredDesc (entries.filterMap
              (scoreFilter lc (tokenFinset lc query)))).filter
                (fun y => decide (y.1 = v))).map Prod.snd :=
          Haux.map Prod.snd
        rw [filter_sortScoredDesc v, scoreFilter_class_map lc _ v hv entries] at hstep1
        have hlhs : (searchMemory lc entries query topK).filter
            (fun e => decide (memScore lc (tokenFinset lc query) e = v)) =
            (((sortScoredDesc (entries.filterMap
              (scoreFilter lc (tokenFinset lc query)))).take topK).filter
                (fun y => decide (y.1 = v))).map Prod.snd := by
          rw [hsm, List.filter_map]
          congr 1
          refine List.filter_congr ?_
          intro x hx
          simp only [Function.comp]
          rw [(hmemtake x hx).1]
        rw [hlhs]
        exact hstep1
      · have hlhs : (searchMemory lc entries query topK).filter
            (fun e => decide (memScore lc (tokenFinset lc query) e = v)) = [] := by
          refine List.filter_eq_nil_iff.mpr ?_
          intro e he
          simp only [decide_eq_true_eq]
          intro heq
          rw [hsm] at he
          obtain ⟨x, hx, rfl⟩ := List.mem_map.mp he
          obtain ⟨hxeq, hxpos⟩ := hmemtake x hx
          rw [← hxeq] at heq
          rw [heq] at hxpos
          exact hv hxpos
        rw [hlhs]
        exact List.nil_prefix

theorem partitionMentions_spec_witness :
    ((partitionMentions ["@all"] ["a1", "a2"]).1 = ["a1", "a2"] ∧
     (partitionMentions ["@all"] ["a1", "a2"]).2 = []) ∧
    ("a1" ∈ (partitionMentions ["a1"] ["a1", "a2"]).1 ↔
      "a1" ∈ ["a1"] ∧ "a1" ∈ ["a1", "a2"]) :=
  ⟨(partitionMentions_spec ["@all"] ["a1", "a2"]).1 (by decide),
   ((partitionMentions_spec ["a1"] ["a1", "a2"]).2.1 (by decide)).1 "a1"⟩

/-- C2 counterexample data: one must-reply agent and a zero quota. -/
def c2Turn : Turn := { must_reply_agents := ["a1"], max_responders := 0 }

def invokeOkC2 : String → Option AgentOutput := fun _ => some { content := "ok".data }

/-- C2 counterexample.  With `max_responders = 0` and one mentioned agent the
turn still persists 1 agent message: the per-turn quota claimed for the whole
turn does not hold — must-replies are not quota-gated. -/
theorem turn_reply_quota_counterexample :
    c2Turn.max_responders = 0 ∧
    (executeTurn (fun _ => none) "g" invokeOkC2 ["a1"] {} c2Turn).saved.length = 1 :=
  ⟨rfl, rfl⟩

def c2bTurn : Turn := { may_reply_agents := ["a1"], max_responders := 1 }

theorem turn_reply_quota_witness :
    (executeTurn (fun _ => none) "g" invokeOkC2 ["a1"] {} c2bTurn).saved.length ≤
      c2bTurn.max_responders :=
  (turn_reply_quota (fun _ => none) "g" invokeOkC2 ["a1"] {} c2bTurn).2.2 rfl

def c3Cfg : GroupConfig := { chain_depth_limit := 1 }

def c3Turn : Turn := { must_reply_agents := ["a1"] }

def c3Invoke : String → Option AgentOutput := fun aid =>
  if aid = "a1" then some { content := "hi".data, next_mentions := ["a2"] }
  else some { should_respond := false }

theorem turn_chaining_spec_witness :
    (executeTurn (fun _ => none) "g" c3Invoke ["a1", "a2"] c3Cfg c3Turn).chained.isSome = true :=
  (turn_chaining_spec (fun _ => none) "g" c3Invoke ["a1", "a2"] c3Cfg c3Turn).1.mpr
    ⟨by decide, by decide⟩

def c6E1 : MemoryEntry := { content := "use alpha tree".data, importance := 9 / 10 }

def c6E2 : MemoryEntry := { content := "beta".data, importance := 0 }

theorem search_memory_demo : searchMemory id [c6E1, c6E2] "alpha".data 5 = [c6E1] := by
  have hc1 : (tokenFinset id "alpha".data ∩ tokenFinset id c6E1.content).card = 1 := by decide
  have hc2 : (tokenFinset id "alpha".data ∩ tokenFinset id c6E2.content).card = 0 := by decide
  have h1 : 0 < memScore id (tokenFinset id "alpha".data) c6E1 := by
    rw [memScore, hc1]
    norm_num [c6E1]
  have h2 : ¬0 < memScore id (tokenFinset id "alpha".data) c6E2 := by
    rw [memScore, hc2]
    norm_num [c6E2]
  have hfm : List.filterMap (scoreFilter id (tokenFinset id "alpha".data)) [c6E1, c6E2] =
      [(memScore id (tokenFinset id "alpha".data) c6E1, c6E1)] := by
    simp [List.filterMap_cons, scoreFilter, h1, h2]
  rw [searchMemory, if_neg (by simp), hfm]
  rfl

theorem search_memory_spec_witness :
    0 < memScore id (tokenFinset id "alpha".data) c6E1 ∧
    (searchMemory id [c6E1, c6E2] "alpha".data 5).length ≤ 5 :=
  ⟨(search_memory_spec id [c6E1, c6E2] "alpha".data 5).2.1 c6E1
    (by rw [search_memory_demo]; exact List.mem_singleton.mpr rfl),
   (search_memory_spec id [c6E1, c6E2] "alpha".data 5).1⟩

/-- C7 (amended).  When the content is marker-free text (no `<`) followed by
a NEXT_MENTIONS marker whose bracketed array contains no newline, the adapter
extracts THAT (first) marker, parses its bracketed array as JSON
(a parse failure leaves `[]`), and removes it together with every further
newline-free marker from the returned (stripped) content. -/
theorem next_mentions_extraction (pj : List Char → Option (List String))
    (a p b : List Char) (ha : '<' ∉ a) (hnl : '\n' ∉ p) (hgt : '>' ∉ p) :
    cliExtractNextMentions pj (a ++ (nmOpn ++ (p ++ (nmCls ++ b)))) =
      ((pj ('[' :: (p ++ [']']))).getD [],
        pyStrip (a ++ (scanB nmBad nmOpn nmCls b).2)) := by
  have ha' : ∀ c ∈ a, c ≠ '<' := fun c hc hEq => ha (hEq ▸ hc)
  have hbad : ∀ c ∈ p, nmBad c = false := by
    intro c hc
    exact beq_eq_false_iff_ne.mpr (fun hEq => hnl (hEq ▸ hc))
  have hinner : scanB nmBad nmOpn nmCls (nmOpn ++ (p ++ (nmCls ++ b))) =
      (p :: (scanB nmBad nmOpn nmCls b).1, (scanB nmBad nmOpn nmCls b).2) := by
    have hcons := scanB_consume nmBad '<' "!--NEXT_MENTIONS:[".data [']', '-', '-']
      (by decide) p hgt hbad b
    exact hcons
  have hfull : scanB nmBad nmOpn nmCls (a ++ (nmOpn ++ (p ++ (nmCls ++ b)))) =
      (p :: (scanB nmBad nmOpn nmCls b).1, a ++ (scanB nmBad nmOpn nmCls b).2) := by
    rw [scanB_pass nmBad nmOpn nmCls ⟨_, rfl⟩ a ha' _, hinner]
  rw [cliExtractNextMentions, hfull]
  rfl

def c7TwoMarkers : List Char :=
  "<!--NEXT_MENTIONS:[\"a\"]-->x<!--NEXT_MENTIONS:[\"b\"]-->".data

def c7Newline : List Char := "<!--NEXT_MENTIONS:[\"a\",\n\"b\"]-->".data

/-- C7 counterexample.  With two markers the adapter extracts the FIRST, not
the last; and a marker whose array contains a newline is not matched at all
(the pattern is compiled without DOTALL), contradicting both parts of the
claim. -/
theorem next_mentions_first_not_last :
    (cliFirstMentionPayload c7TwoMarkers = some "[\"a\"]".data ∧
     specLastMentionPayload c7TwoMarkers = some "[\"b\"]".data ∧
     cliFirstMentionPayload c7TwoMarkers ≠ specLastMentionPayload c7TwoMarkers) ∧
    (cliFirstMentionPayload c7Newline = none ∧
     specLastMentionPayload c7Newline = some "[\"a\",\n\"b\"]".data) :=
  ⟨⟨rfl, rfl, by decide⟩, rfl, rfl⟩

def c7pj : List Char → Option (List String) := fun s =>
  if s = "[\"a2\"]".data then some ["a2"] else none

theorem next_mentions_extraction_witness :
    cliExtractNextMentions c7pj
      ("hi ".data ++ (nmOpn ++ ("\"a2\"".data ++ (nmCls ++ [])))) = (["a2"], "hi".data) := by
  rw [next_mentions_extraction c7pj "hi ".data "\"a2\"".data []
    (by decide) (by decide) (by decide)]
  rfl

/-- C8 (amended).  Each of the three ordinary failures returns a sentinel
`AgentOutput` (never a raised exception) with a bracketed error prefix and
`should_respond = true`; but `execution_meta.is_error = true` holds ONLY for
the cursor adapter's non-zero exit — the claude adapter never attaches
`execution_meta` to a sentinel, and the cursor adapter omits it on timeout
and missing executable. -/
theorem adapter_failure_sentinels (f : AdapterFailure) (durationMs : ℤ) (prompt : List Char) :
    ((claudeFailureOutput f).should_respond = true ∧
     (claudeFailureOutput f).content.head? = some '[' ∧
     (claudeFailureOutput f).execution_meta = none) ∧
    ((cursorFailureOutput durationMs prompt f).should_respond = true ∧
     (cursorFailureOutput durationMs prompt f).content.head? = some '[' ∧
     (match f with
      | .nonZeroExit _ _ =>
          (cursorFailureOutput durationMs prompt f).execution_meta =
            some { duration_ms := durationMs, is_error := true }
      | _ => (cursorFailureOutput durationMs prompt f).execution_meta = none)) := by
  cases f with
  | timeout => exact ⟨⟨rfl, rfl, rfl⟩, rfl, rfl, rfl⟩
  | executableNotFound => exact ⟨⟨rfl, rfl, rfl⟩, rfl, rfl, rfl⟩
  | nonZeroExit err raw => exact ⟨⟨rfl, rfl, rfl⟩, rfl, rfl, rfl⟩

theorem adapter_failure_sentinels_witness :
    ((claudeFailureOutput .timeout).should_respond = true ∧
     (claudeFailureOutput .timeout).content.head? = some '[' ∧
     (claudeFailureOutput .timeout).execution_meta = none) ∧
    ((cursorFailureOutput 0 [] .timeout).should_respond = true ∧
     (cursorFailureOutput 0 [] .timeout).content.head? = some '[' ∧
     (cursorFailureOutput 0 [] .timeout).execution_meta = none) :=
  adapter_failure_sentinels .timeout 0 []

/-- C8 counterexample.  The timeout sentinels of both adapters carry no
`execution_meta` at all, so "`execution_meta.is_error = true` in all three
cases" is false on the code. -/
theorem adapter_failure_meta_missing :
    (claudeFailureOutput .timeout).execution_meta = none ∧
    (cursorFailureOutput 0 [] .timeout).execution_meta = none ∧
    metaIsError (claudeFailureOutput .timeout) = false :=
  ⟨rfl, rfl, rfl⟩

def c9Reg : List (String × AgentProfile) :=
  [("a1", { agent_id := "a1", name := "Alice" }),
   ("a2", { agent_id := "a2", name := "Bob", skills := ["dev"] })]

/-- C9 (code bug).  An unresolved roster id is NOT skipped: the registry's
`get_agent` raises `KeyError` (per its docstring and test), so the peer build
aborts with the error even though a later guard meant to skip falsy profiles;
with every id resolvable the build returns the resolved peers. -/
theorem build_peers_raises_on_unresolved :
    buildPeers c9Reg "a1" ["a1", "a2", "ghost"] = .error "Agent not found: ghost" ∧
    registryGetAgent c9Reg "ghost" = .error "Agent not found: ghost" ∧
    buildPeers c9Reg "a1" ["a1", "a2"] =
      .ok [{ agent_id := "a2", name := "Bob", skills := ["dev"] }] :=
  ⟨rfl, rfl, rfl⟩

def c10Reg : List (String × AgentProfile) :=
  [("a1", { agent_id := "a1", name := "Alice" }),
   ("a2", { agent_id := "a2", name := "Bob" })]

def c10Content : List Char := "@a1 x @a1 y".data

def c10Invoke : String → Option AgentOutput := fun aid =>
  if aid = "a1" then some { content := "hi".data } else some { should_respond := false }

def c10Turn : Turn :=
  { trigger_source := "u", must_reply_agents := ["a1", "a1"], may_reply_agents := ["a2"],
    group_agent_ids := ["a1", "a2"] }

/-- C10.  `"@a1 x @a1 y"` parses to `["a1", "a1"]` (one entry per
occurrence), `on_new_message` keeps the duplicates in `must_reply_agents`,
and Phase A invokes the agent once per occurrence, so one turn persists two
messages by the same agent for one trigger. -/
theorem duplicate_mentions_duplicate_replies :
    parseMentions c10Reg c10Content ["a1", "a2"] = .ok ["a1", "a1"] ∧
    onNewMessage c10Reg ["a1", "a2"] {} c10Content "u" [] = .ok c10Turn ∧
    ((executeTurn (fun _ => none) "g" c10Invoke ["a1", "a2"] {} c10Turn).saved.map
        (fun m => m.author_id)) = ["a1", "a1"] :=
  ⟨rfl, rfl, rfl⟩

end AgentArena
